import Mathlib

/-!
Shallow embedding of the multi-source enrichment/join engine of
relecov-tools (files relecov_tools/read_bioinfo_metadata.py,
relecov_tools/utils.py, relecov_tools/assets/pipeline_utils/viralrecon.py),
together with theorems settling the spec claims about it.

Python dictionaries are modelled as association lists whose entry order is
the dict insertion order (Python dicts preserve insertion order, and this
order is observable in the serialized records).  Assigning to a key that is
already present keeps its position; assigning a fresh key appends it at the
end.  Fallible Python code (KeyError, IndexError, ValueError, sys.exit) is
modelled with Except String.
-/

set_option autoImplicit false

namespace Relecov

/-- The sentinel constant used throughout read_bioinfo_metadata.py. -/
def sentinel : String := "Not Provided [GENEPIO:0001668]"

/-- A Python dict with String keys, in insertion order. -/
abbrev Dict (α : Type) := List (String × α)

/-- `d[k]` on a Python dict: value of the (first) entry with key `k`. -/
def getF {α : Type} : Dict α → String → Option α
  | [], _ => none
  | (k, v) :: r, key => if k = key then some v else getF r key

/-- `d[k] = v` on a Python dict: overwrite the entry in place when the key
is present, append the entry at the end otherwise.  On a genuine Python
dict keys are unique, so rewriting every entry with the key is the same as
rewriting the first. -/
def setF {α : Type} (d : Dict α) (key : String) (v : α) : Dict α :=
  if d.any (fun p => p.1 = key) then
    d.map (fun p => if p.1 = key then (key, v) else p)
  else d ++ [(key, v)]

/-- `k in d` on a Python dict. -/
def containsK {α : Type} (d : Dict α) (key : String) : Bool :=
  d.any (fun p => p.1 = key)

/-- A sequence of dict assignments, performed left to right. -/
def applyWrites {α : Type} (d : Dict α) (ws : List (String × α)) : Dict α :=
  ws.foldl (fun acc w => setF acc w.1 w.2) d

/-- The value of the last write to `key` in a write sequence, if any. -/
def lastVal {α : Type} : List (String × α) → String → Option α
  | [], _ => none
  | w :: ws, key =>
    match lastVal ws key with
    | some v => some v
    | none => if w.1 = key then some w.2 else none

theorem getF_map_upd_self {α : Type} (d : Dict α) (k : String) (v : α)
    (h : d.any (fun p => p.1 = k) = true) :
    getF (d.map (fun p => if p.1 = k then (k, v) else p)) k = some v := by
  induction d with
  | nil => simp at h
  | cons p r ih =>
    simp only [List.map_cons]
    by_cases hp : p.1 = k
    · rw [if_pos hp]
      simp [getF]
    · simp only [List.any_cons, hp, decide_False, Bool.false_or] at h
      rw [if_neg hp]
      simp only [getF]
      rw [if_neg hp]
      exact ih h

theorem getF_map_upd_ne {α : Type} (d : Dict α) (k k' : String) (v : α)
    (h : k' ≠ k) :
    getF (d.map (fun p => if p.1 = k then (k, v) else p)) k' = getF d k' := by
  induction d with
  | nil => rfl
  | cons p r ih =>
    simp only [List.map_cons]
    by_cases hp : p.1 = k
    · rw [if_pos hp]
      simp only [getF]
      rw [if_neg (fun hh => h hh.symm), if_neg (fun hh => h (hp ▸ hh).symm), ih]
    · rw [if_neg hp]
      simp only [getF]
      by_cases hq : p.1 = k'
      · simp [hq]
      · rw [if_neg hq, if_neg hq]
        exact ih

theorem getF_append_single {α : Type} (d : Dict α) (k k' : String) (v : α) :
    getF (d ++ [(k, v)]) k' =
      match getF d k' with
      | some w => some w
      | none => if k = k' then some v else none := by
  induction d with
  | nil => simp [getF]
  | cons p r ih =>
    by_cases hq : p.1 = k'
    · simp [getF, hq]
    · simp only [List.cons_append, getF, hq, if_false]
      exact ih

theorem getF_eq_none_of_not_any {α : Type} (d : Dict α) (k : String)
    (h : d.any (fun p => p.1 = k) = false) : getF d k = none := by
  induction d with
  | nil => rfl
  | cons p r ih =>
    simp only [List.any_cons, Bool.or_eq_false_iff, decide_eq_false_iff_not] at h
    simp only [getF, h.1, if_false]
    exact ih (by simp [h.2])

theorem getF_setF_self {α : Type} (d : Dict α) (k : String) (v : α) :
    getF (setF d k v) k = some v := by
  unfold setF
  by_cases h : d.any (fun p => p.1 = k)
  · rw [if_pos h]
    exact getF_map_upd_self d k v h
  · rw [if_neg h, getF_append_single, getF_eq_none_of_not_any d k (Bool.eq_false_iff.mpr h)]
    simp

theorem getF_setF_ne {α : Type} (d : Dict α) (k k' : String) (v : α)
    (h : k' ≠ k) : getF (setF d k v) k' = getF d k' := by
  unfold setF
  by_cases hc : d.any (fun p => p.1 = k)
  · rw [if_pos hc]
    exact getF_map_upd_ne d k k' v h
  · rw [if_neg hc, getF_append_single, if_neg (fun hh => h hh.symm)]
    cases getF d k' <;> rfl

theorem getF_applyWrites {α : Type} (ws : List (String × α)) (d : Dict α)
    (k : String) :
    getF (applyWrites d ws) k =
      match lastVal ws k with
      | some v => some v
      | none => getF d k := by
  induction ws generalizing d with
  | nil => rfl
  | cons w ws ih =>
    simp only [applyWrites, List.foldl_cons] at *
    rw [ih]
    cases hl : lastVal ws k with
    | some v => simp [lastVal, hl]
    | none =>
      simp only [lastVal, hl]
      by_cases hw : w.1 = k
      · subst hw
        simp [getF_setF_self]
      · rw [if_neg hw, getF_setF_ne _ _ _ _ (fun h => hw h.symm)]

theorem keys_map_upd {α : Type} (d : Dict α) (k : String) (v : α) :
    (d.map (fun p => if p.1 = k then (k, v) else p)).map Prod.fst =
      d.map Prod.fst := by
  induction d with
  | nil => rfl
  | cons p r ih =>
    simp only [List.map_cons]
    by_cases hp : p.1 = k
    · rw [if_pos hp, ih, hp]
    · rw [if_neg hp, ih]

theorem containsK_setF_mono {α : Type} (d : Dict α) (k k' : String) (v : α)
    (h : containsK d k' = true) : containsK (setF d k v) k' = true := by
  unfold containsK setF at *
  by_cases hc : d.any (fun p => p.1 = k)
  · rw [if_pos hc, List.any_map]
    refine List.any_eq_true.mpr ?_
    obtain ⟨p, hp, hk⟩ := List.any_eq_true.mp h
    refine ⟨p, hp, ?_⟩
    simp only [Function.comp]
    by_cases hpk : p.1 = k
    · simp only [hpk, if_true]
      simp only [decide_eq_true_eq] at hk ⊢
      rw [← hpk, hk]
    · simp only [hpk, if_false]
      exact hk
  · rw [if_neg hc, List.any_append, h, Bool.true_or]

theorem containsK_setF_self {α : Type} (d : Dict α) (k : String) (v : α) :
    containsK (setF d k v) k = true := by
  unfold containsK setF
  by_cases hc : d.any (fun p => p.1 = k)
  · rw [if_pos hc, List.any_map]
    obtain ⟨p, hp, hk⟩ := List.any_eq_true.mp hc
    refine List.any_eq_true.mpr ⟨p, hp, ?_⟩
    simp only [Function.comp, decide_eq_true_eq] at hk ⊢
    simp [hk]
  · rw [if_neg hc, List.any_append]
    simp

theorem containsK_applyWrites_mono {α : Type} (ws : List (String × α))
    (d : Dict α) (k : String) (h : containsK d k = true) :
    containsK (applyWrites d ws) k = true := by
  induction ws generalizing d with
  | nil => exact h
  | cons w ws ih =>
    simp only [applyWrites, List.foldl_cons] at *
    exact ih _ (containsK_setF_mono _ _ _ _ h)

theorem containsK_applyWrites_of_mem {α : Type} (ws : List (String × α))
    (d : Dict α) (w : String × α) (hw : w ∈ ws) :
    containsK (applyWrites d ws) w.1 = true := by
  induction ws generalizing d with
  | nil => cases hw
  | cons w' ws ih =>
    simp only [applyWrites, List.foldl_cons] at *
    rcases List.mem_cons.mp hw with h | h
    · subst h
      exact containsK_applyWrites_mono ws _ _ (containsK_setF_self _ _ _)
    · exact ih _ h

/-- Writes to keys that are all already present neither reorder nor extend
the dict: the result is the original dict with each written key holding the
value of its last write. -/
theorem applyWrites_eq_map {α : Type} (ws : List (String × α)) (d : Dict α)
    (h : ∀ w ∈ ws, containsK d w.1 = true) :
    applyWrites d ws =
      d.map (fun p => (p.1, (lastVal ws p.1).getD p.2)) := by
  induction ws generalizing d with
  | nil =>
    show d = d.map (fun p => (p.1, p.2))
    rw [show (fun p : String × α => (p.1, p.2)) = id from rfl, List.map_id]
  | cons w ws ih =>
    simp only [applyWrites, List.foldl_cons]
    have hcd : containsK d w.1 = true := h w (List.mem_cons_self _ _)
    have hstep : ∀ w' ∈ ws, containsK (setF d w.1 w.2) w'.1 = true :=
      fun w' hw' => containsK_setF_mono _ _ _ _ (h w' (List.mem_cons_of_mem _ hw'))
    have := ih (setF d w.1 w.2) hstep
    simp only [applyWrites] at this
    rw [this]
    unfold setF
    unfold containsK at hcd
    rw [if_pos hcd, List.map_map]
    refine List.map_congr_left ?_
    intro p _
    simp only [Function.comp]
    by_cases hp : p.1 = w.1
    · rw [if_pos hp]
      simp only [lastVal, hp]
      cases lastVal ws w.1 <;> simp
    · rw [if_neg hp]
      simp only [lastVal]
      cases hl : lastVal ws p.1 with
      | some v => rfl
      | none => rw [if_neg (fun hh => hp hh.symm)]

theorem lastVal_eq_none_iff {α : Type} (ws : List (String × α)) (k : String) :
    lastVal ws k = none ↔ ∀ w ∈ ws, w.1 ≠ k := by
  induction ws with
  | nil => simp [lastVal]
  | cons w ws ih =>
    simp only [lastVal]
    cases hl : lastVal ws k with
    | some v =>
      simp only []
      constructor
      · intro h; exact absurd h (by simp)
      · intro h
        exfalso
        have h2 := ih.mpr (fun w' hw' => h w' (List.mem_cons_of_mem _ hw'))
        rw [h2] at hl
        exact Option.noConfusion hl
    | none =>
      by_cases hw : w.1 = k
      · rw [if_pos hw]
        constructor
        · intro h; exact absurd h (by simp)
        · intro h; exact absurd hw (h w (List.mem_cons_self _ _))
      · rw [if_neg hw]
        constructor
        · intro _ w' hw'
          rcases List.mem_cons.mp hw' with h | h
          · subst h; exact hw
          · exact ih.mp hl w' h
        · intro _; rfl

theorem mem_setF_ne {α : Type} (d : Dict α) (k : String) (v : α)
    (p : String × α) (hp : p ∈ setF d k v) (hne : p.1 ≠ k) : p ∈ d := by
  unfold setF at hp
  by_cases hc : d.any (fun q => q.1 = k)
  · rw [if_pos hc] at hp
    obtain ⟨q, hq, hfq⟩ := List.mem_map.mp hp
    by_cases hqk : q.1 = k
    · rw [if_pos hqk] at hfq
      rw [← hfq] at hne
      exact absurd rfl hne
    · rw [if_neg hqk] at hfq
      rw [← hfq]; exact hq
  · rw [if_neg hc] at hp
    rcases List.mem_append.mp hp with h | h
    · exact h
    · rcases List.mem_singleton.mp h with rfl
      exact absurd rfl hne

theorem mem_setF_self_val {α : Type} (d : Dict α) (k : String) (v : α)
    (p : String × α) (hp : p ∈ setF d k v) (hk : p.1 = k) : p.2 = v := by
  unfold setF at hp
  by_cases hc : d.any (fun q => q.1 = k)
  · rw [if_pos hc] at hp
    obtain ⟨q, hq, hfq⟩ := List.mem_map.mp hp
    by_cases hqk : q.1 = k
    · rw [if_pos hqk] at hfq
      rw [← hfq]
    · rw [if_neg hqk] at hfq
      rw [← hfq] at hk
      exact absurd hk hqk
  · rw [if_neg hc] at hp
    rcases List.mem_append.mp hp with h | h
    · exfalso
      have : d.any (fun q => q.1 = k) = true :=
        List.any_eq_true.mpr ⟨p, h, by simp [hk]⟩
      rw [this] at hc; exact hc rfl
    · rcases List.mem_singleton.mp h with rfl
      rfl

theorem mem_applyWrites_unwritten {α : Type} (ws : List (String × α))
    (d : Dict α) (k : String) (hws : ∀ w ∈ ws, w.1 ≠ k)
    (p : String × α) (hp : p ∈ applyWrites d ws) (hk : p.1 = k) : p ∈ d := by
  induction ws generalizing d with
  | nil => exact hp
  | cons w ws ih =>
    simp only [applyWrites, List.foldl_cons] at hp
    have hmem := ih (setF d w.1 w.2) (fun w' hw' => hws w' (List.mem_cons_of_mem _ hw')) hp
    exact mem_setF_ne _ _ _ _ hmem
      (by rw [hk]; exact fun hh => hws w (List.mem_cons_self _ _) hh.symm)

/-- Every entry of the written dict whose key was written carries the value
of the last write to that key. -/
theorem val_of_mem_applyWrites {α : Type} (ws : List (String × α))
    (d : Dict α) (p : String × α) (hp : p ∈ applyWrites d ws)
    (v : α) (hv : lastVal ws p.1 = some v) : p.2 = v := by
  induction ws generalizing d with
  | nil => cases hv
  | cons w ws ih =>
    simp only [applyWrites, List.foldl_cons] at hp
    simp only [lastVal] at hv
    cases hl : lastVal ws p.1 with
    | some v' =>
      rw [hl] at hv
      cases hv
      exact ih _ hp hl
    | none =>
      rw [hl] at hv
      by_cases hw : w.1 = p.1
      · rw [if_pos hw] at hv
        cases hv
        have hmem := mem_applyWrites_unwritten ws _ p.1
          (fun w' hw' => (lastVal_eq_none_iff ws p.1).mp hl w' hw') p hp rfl
        exact mem_setF_self_val d w.1 w.2 p hmem hw.symm
      · rw [if_neg hw] at hv
        cases hv

/-- Applying the same sequence of dict writes twice is the same as applying
it once. -/
theorem applyWrites_idem {α : Type} (ws : List (String × α)) (d : Dict α) :
    applyWrites (applyWrites d ws) ws = applyWrites d ws := by
  have hkeys : ∀ w ∈ ws, containsK (applyWrites d ws) w.1 = true :=
    fun w hw => containsK_applyWrites_of_mem ws d w hw
  rw [applyWrites_eq_map ws _ hkeys]
  have : ∀ p ∈ applyWrites d ws,
      (fun q : String × α => (q.1, (lastVal ws q.1).getD q.2)) p = id p := by
    intro p hp
    show (p.1, (lastVal ws p.1).getD p.2) = p
    cases hl : lastVal ws p.1 with
    | none => rfl
    | some v =>
      have hv := val_of_mem_applyWrites ws d p hp v hl
      show (p.1, v) = p
      rw [← hv]
  rw [List.map_congr_left this, List.map_id]

/-- Python `s.split(sep)` on the character list, for the single-character
separators this code base uses (tab, comma, dot, ampersand). -/
def splitCharCore (sep : Char) : List Char → List (List Char)
  | [] => [[]]
  | c :: rest =>
    match splitCharCore sep rest with
    | [] => [[]]
    | cur :: parts =>
      if c = sep then [] :: cur :: parts else (c :: cur) :: parts

/-- Python `s.split(sep)` for a single-character separator. -/
def pySplit (s : String) (sep : Char) : List String :=
  (splitCharCore sep s.data).map String.mk

/-- Python `s.strip()`: leading and trailing whitespace removed. -/
def pyStrip (s : String) : String :=
  String.mk
    (((s.data.dropWhile Char.isWhitespace).reverse.dropWhile
        Char.isWhitespace).reverse)

/-- Python `c in s` on a string, for a single character (used for the
re.search of the fusion separator and the hyphen tests). -/
def pyHasChar (s : String) (c : Char) : Bool :=
  s.data.any (fun a => a = c)

/-- Python `s.replace("-", "_")`: every hyphen becomes an underscore
(single-character pattern, so a character-wise map). -/
def replaceDash (s : String) : String :=
  String.mk (s.data.map (fun c => if c = '-' then '_' else c))

/-- `d[k]` on a Python dict when a KeyError must propagate. -/
def getE {α : Type} (d : Dict α) (key : String) : Except String α :=
  match getF d key with
  | some v => .ok v
  | none => .error ("KeyError: " ++ key)

/-- The record field holding the sample identifier
(read_bioinfo_metadata.py line 90). -/
def sampleIdField : String := "submitting_lab_sample_id"

/-- A per-sample record: field name to value, in insertion order. -/
abbrev Record := Dict String

/-- A loaded source table: sample id to its row of columns. -/
abbrev SourceTable := Dict (Dict String)

/-- Inner loop of BioinfoMetadata.mapping_over_table for a sample present in
the table (read_bioinfo_metadata.py lines 91-98): for each
(field, column) pair copy map_data[sample][column] onto the row; a missing
column (KeyError) is absorbed, setting the sentinel on that field and
recording field_errors[sample] = one-entry dict for that field. -/
def mapFieldsPresent (rd : Dict String) (mapping_fields : Dict String)
    (sample_name : String) (row : Record) (fe : Dict (Dict String)) :
    Record × Dict (Dict String) :=
  mapping_fields.foldl
    (fun acc p =>
      match getF rd p.2 with
      | some v => (setF acc.1 p.1 v, acc.2)
      | none => (setF acc.1 p.1 sentinel, setF acc.2 sample_name [(p.1, p.2)]))
    (row, fe)

/-- Loop of BioinfoMetadata.mapping_over_table over the records
(read_bioinfo_metadata.py lines 89-102), carrying the processed rows and
the errors / field_errors accumulators.  A record without the
submitting_lab_sample_id field raises KeyError (line 90). -/
def mappingOverTableGo (map_data : SourceTable) (mapping_fields : Dict String) :
    List Record → List Record × List String × Dict (Dict String) →
    Except String (List Record × List String × Dict (Dict String))
  | [], st => .ok st
  | row :: rest, (rs, errs, fes) =>
    match getF row sampleIdField with
    | none => .error ("KeyError: " ++ sampleIdField)
    | some sample_name =>
      match getF map_data sample_name with
      | some rd =>
        let pr := mapFieldsPresent rd mapping_fields sample_name row fes
        mappingOverTableGo map_data mapping_fields rest (rs ++ [pr.1], errs, pr.2)
      | none =>
        mappingOverTableGo map_data mapping_fields rest
          (rs ++ [mapping_fields.foldl (fun r p => setF r p.1 sentinel) row],
            errs ++ [sample_name], fes)

/-- BioinfoMetadata.mapping_over_table (read_bioinfo_metadata.py lines
85-112).  The Python function mutates and returns j_data; errors and
field_errors are only logged, so the result here is the record list. -/
def mapping_over_table (j_data : List Record) (map_data : SourceTable)
    (mapping_fields : Dict String) : Except String (List Record) :=
  (mappingOverTableGo map_data mapping_fields j_data ([], [], [])).map
    (fun st => st.1)

/-- The sequence of dict writes mapping_over_table performs on one record
whose sample id is `sid`: per mapped field, the table value when the sample
and column are present, the sentinel otherwise. -/
def rowWrites (map_data : SourceTable) (mapping_fields : Dict String)
    (sid : String) : List (String × String) :=
  match getF map_data sid with
  | some rd => mapping_fields.map (fun p => (p.1, (getF rd p.2).getD sentinel))
  | none => mapping_fields.map (fun p => (p.1, sentinel))

/-- The effect of mapping_over_table on one record. -/
def mapRow (map_data : SourceTable) (mapping_fields : Dict String)
    (row : Record) : Except String Record :=
  match getF row sampleIdField with
  | none => .error ("KeyError: " ++ sampleIdField)
  | some sid => .ok (applyWrites row (rowWrites map_data mapping_fields sid))

theorem mapFieldsPresent_fst (rd : Dict String) (mapping_fields : Dict String)
    (sample_name : String) (row : Record) (fe : Dict (Dict String)) :
    (mapFieldsPresent rd mapping_fields sample_name row fe).1 =
      applyWrites row
        (mapping_fields.map (fun p => (p.1, (getF rd p.2).getD sentinel))) := by
  unfold mapFieldsPresent applyWrites
  rw [List.foldl_map]
  induction mapping_fields generalizing row fe with
  | nil => rfl
  | cons p mf ih =>
    simp only [List.foldl_cons]
    cases h : getF rd p.2 with
    | some v => simp only [h, Option.getD]; exact ih _ _
    | none => simp only [h, Option.getD]; exact ih _ _

theorem sentinelFold_eq_applyWrites (mapping_fields : Dict String)
    (row : Record) :
    mapping_fields.foldl (fun r p => setF r p.1 sentinel) row =
      applyWrites row (mapping_fields.map (fun p => (p.1, sentinel))) := by
  unfold applyWrites
  rw [List.foldl_map]

/-- Element-by-element effectful map over Except, written out so its
equations hold by rfl. -/
def mapME {α β : Type} (f : α → Except String β) : List α → Except String (List β)
  | [] => .ok []
  | a :: l =>
    match f a with
    | .error e => .error e
    | .ok b =>
      match mapME f l with
      | .error e => .error e
      | .ok bs => .ok (b :: bs)

theorem motGo_records (map_data : SourceTable) (mapping_fields : Dict String)
    (rows : List Record) (rs : List Record) (errs : List String)
    (fes : Dict (Dict String)) :
    (mappingOverTableGo map_data mapping_fields rows (rs, errs, fes)).map
        (fun st => st.1) =
      (mapME (mapRow map_data mapping_fields) rows).map (fun out => rs ++ out) := by
  induction rows generalizing rs errs fes with
  | nil => simp [mappingOverTableGo, mapME, Except.map]
  | cons row rest ih =>
    simp only [mappingOverTableGo, mapME, mapRow]
    cases hid : getF row sampleIdField with
    | none => rfl
    | some sid =>
      simp only []
      cases hm : getF map_data sid with
      | some rd =>
        simp only []
        rw [ih]
        simp only [rowWrites, hm, mapFieldsPresent_fst]
        cases hrest : mapME (mapRow map_data mapping_fields) rest with
        | error e => rfl
        | ok out => simp [Except.map]
      | none =>
        simp only []
        rw [ih]
        simp only [rowWrites, hm, sentinelFold_eq_applyWrites]
        cases hrest : mapME (mapRow map_data mapping_fields) rest with
        | error e => rfl
        | ok out => simp [Except.map]

/-- mapping_over_table is, on its record list, record-by-record application
of `mapRow`. -/
theorem mapping_over_table_eq_mapME (j_data : List Record)
    (map_data : SourceTable) (mapping_fields : Dict String) :
    mapping_over_table j_data map_data mapping_fields =
      mapME (mapRow map_data mapping_fields) j_data := by
  unfold mapping_over_table
  rw [motGo_records]
  cases h : mapME (mapRow map_data mapping_fields) j_data with
  | error e => rfl
  | ok out => simp [Except.map]

theorem lastVal_mem {α : Type} (ws : List (String × α)) (k : String) (v : α)
    (h : lastVal ws k = some v) : (k, v) ∈ ws := by
  induction ws with
  | nil => cases h
  | cons w ws ih =>
    simp only [lastVal] at h
    cases hl : lastVal ws k with
    | some v' =>
      rw [hl] at h
      cases h
      exact List.mem_cons_of_mem _ (ih hl)
    | none =>
      rw [hl] at h
      by_cases hw : w.1 = k
      · rw [if_pos hw] at h
        cases h
        rw [← hw]
        exact List.mem_cons_self _ _
      · rw [if_neg hw] at h
        cases h

theorem lastVal_isSome_of_key_mem {α : Type} (ws : List (String × α))
    (k : String) (x : α) (h : (k, x) ∈ ws) : ∃ v, lastVal ws k = some v := by
  induction ws with
  | nil => cases h
  | cons w ws ih =>
    simp only [lastVal]
    cases hl : lastVal ws k with
    | some v => exact ⟨v, rfl⟩
    | none =>
      rcases List.mem_cons.mp h with hh | hh
      · rw [← hh]
        simp
      · obtain ⟨v, hv⟩ := ih hh
        rw [hv] at hl
        cases hl

theorem mapME_ok_mem {α β : Type} (f : α → Except String β) (l : List α)
    (out : List β) (h : mapME f l = .ok out) (b : β) (hb : b ∈ out) :
    ∃ a ∈ l, f a = .ok b := by
  induction l generalizing out with
  | nil =>
    simp only [mapME] at h
    cases h
    cases hb
  | cons a l ih =>
    simp only [mapME] at h
    cases hfa : f a with
    | error e => rw [hfa] at h; cases h
    | ok b0 =>
      rw [hfa] at h
      cases hrest : mapME f l with
      | error e => rw [hrest] at h; cases h
      | ok out0 =>
        rw [hrest] at h
        simp only [] at h
        cases h
        rcases List.mem_cons.mp hb with rfl | hmem
        · exact ⟨a, List.mem_cons_self _ _, hfa⟩
        · obtain ⟨a', ha', hfa'⟩ := ih out0 hrest hmem
          exact ⟨a', List.mem_cons_of_mem _ ha', hfa'⟩

/-- BioinfoMetadata.include_software_versions (read_bioinfo_metadata.py
lines 286-301), after the version yaml has been read: for each record and
each mapped field, row[field] = versions[key][value].  Both lookups are
bare dict accesses: a key missing from the version manifest raises
KeyError. -/
def include_software_versions (j_data : List Record)
    (version_fields : Dict (Dict String)) (versions : Dict (Dict String)) :
    Except String (List Record) :=
  mapME
    (fun row =>
      version_fields.foldlM
        (fun r p =>
          p.2.foldlM
            (fun r2 q => do
              let tool ← getE versions q.1
              let v ← getE tool q.2
              pure (setF r2 p.1 v))
            r)
        row)
    j_data

theorem mapME_ok_of_all_ok {α β : Type} (f : α → Except String β) (l : List α)
    (h : ∀ a ∈ l, ∃ b, f a = .ok b) : ∃ out, mapME f l = .ok out := by
  induction l with
  | nil => exact ⟨[], rfl⟩
  | cons a l ih =>
    obtain ⟨b, hb⟩ := h a (List.mem_cons_self _ _)
    obtain ⟨out, hout⟩ := ih (fun a' ha' => h a' (List.mem_cons_of_mem _ ha'))
    exact ⟨b :: out, by simp [mapME, hb, hout]⟩

theorem rowWrites_keys (map_data : SourceTable) (mapping_fields : Dict String)
    (sid : String) (w : String × String)
    (hw : w ∈ rowWrites map_data mapping_fields sid) :
    ∃ p ∈ mapping_fields, w.1 = p.1 := by
  unfold rowWrites at hw
  cases hm : getF map_data sid with
  | some rd =>
    rw [hm] at hw
    obtain ⟨p, hp, hfp⟩ := List.mem_map.mp hw
    exact ⟨p, hp, by rw [← hfp]⟩
  | none =>
    rw [hm] at hw
    obtain ⟨p, hp, hfp⟩ := List.mem_map.mp hw
    exact ⟨p, hp, by rw [← hfp]⟩

theorem mapRow_preserves_id (map_data : SourceTable)
    (mapping_fields : Dict String)
    (hf : ∀ p ∈ mapping_fields, p.1 ≠ sampleIdField)
    (row r1 : Record) (h : mapRow map_data mapping_fields row = .ok r1) :
    getF r1 sampleIdField = getF row sampleIdField := by
  unfold mapRow at h
  cases hid : getF row sampleIdField with
  | none => rw [hid] at h; cases h
  | some sid =>
    rw [hid] at h
    cases h
    rw [getF_applyWrites]
    have : lastVal (rowWrites map_data mapping_fields sid) sampleIdField = none := by
      rw [lastVal_eq_none_iff]
      intro w hw
      obtain ⟨p, hp, hk⟩ := rowWrites_keys _ _ _ w hw
      rw [hk]
      exact hf p hp
    rw [this, hid]

theorem mapRow_idem (map_data : SourceTable) (mapping_fields : Dict String)
    (hf : ∀ p ∈ mapping_fields, p.1 ≠ sampleIdField)
    (row r1 : Record) (h : mapRow map_data mapping_fields row = .ok r1) :
    mapRow map_data mapping_fields r1 = .ok r1 := by
  have hpres := mapRow_preserves_id map_data mapping_fields hf row r1 h
  unfold mapRow at h ⊢
  cases hid : getF row sampleIdField with
  | none => rw [hid] at h; cases h
  | some sid =>
    rw [hid] at h
    cases h
    rw [hid] at hpres
    rw [hpres]
    simp only []
    rw [applyWrites_idem]

theorem mapME_fix {α : Type} (f : α → Except String α)
    (hfix : ∀ a b, f a = .ok b → f b = .ok b) (l out : List α)
    (h : mapME f l = .ok out) : mapME f out = .ok out := by
  induction l generalizing out with
  | nil =>
    simp only [mapME] at h
    cases h
    rfl
  | cons a l ih =>
    simp only [mapME] at h
    cases hfa : f a with
    | error e => rw [hfa] at h; cases h
    | ok b =>
      rw [hfa] at h
      cases hrest : mapME f l with
      | error e => rw [hrest] at h; cases h
      | ok out0 =>
        rw [hrest] at h
        simp only [] at h
        cases h
        simp only [mapME, hfix a b hfa, ih out0 hrest]

/-- C1: for every record list, source table, mapping spec and source label
passed to mapping_over_table, every record in the returned list contains
every target field declared in the mapping spec, holding either the value
copied from the source row for that sample or the sentinel string; no
declared target field is ever absent, whether the sample is present in the
table or not.  (The source label only affects logging and is not part of
the record-level result.) -/
theorem mapping_over_table_schema_complete (j_data : List Record)
    (map_data : SourceTable) (mapping_fields : Dict String) (out : List Record)
    (h : mapping_over_table j_data map_data mapping_fields = .ok out) :
    ∀ r' ∈ out, ∃ r ∈ j_data, ∃ sid, getF r sampleIdField = some sid ∧
      ∀ p ∈ mapping_fields, ∃ v, getF r' p.1 = some v ∧
        (v = sentinel ∨ ∃ rd col, getF map_data sid = some rd ∧
          (p.1, col) ∈ mapping_fields ∧ getF rd col = some v) := by
  intro r' hr'
  rw [mapping_over_table_eq_mapME] at h
  obtain ⟨r, hrj, hrow⟩ := mapME_ok_mem _ _ _ h r' hr'
  unfold mapRow at hrow
  cases hid : getF r sampleIdField with
  | none => rw [hid] at hrow; cases hrow
  | some sid =>
    rw [hid] at hrow
    cases hrow
    refine ⟨r, hrj, sid, hid, ?_⟩
    intro p hp
    have hkey : ∃ x, (p.1, x) ∈ rowWrites map_data mapping_fields sid := by
      unfold rowWrites
      cases hm : getF map_data sid with
      | some rd =>
        exact ⟨(getF rd p.2).getD sentinel,
          List.mem_map_of_mem (fun q => (q.1, (getF rd q.2).getD sentinel)) hp⟩
      | none =>
        exact ⟨sentinel, List.mem_map_of_mem (fun q => (q.1, sentinel)) hp⟩
    obtain ⟨x, hx⟩ := hkey
    obtain ⟨v, hv⟩ := lastVal_isSome_of_key_mem _ p.1 x hx
    refine ⟨v, ?_, ?_⟩
    · rw [getF_applyWrites, hv]
    · have hmem := lastVal_mem _ p.1 v hv
      unfold rowWrites at hmem
      cases hm : getF map_data sid with
      | some rd =>
        rw [hm] at hmem
        obtain ⟨q, hq, hfq⟩ := List.mem_map.mp hmem
        injection hfq with hq1 hq2
        cases hval : getF rd q.2 with
        | some w =>
          right
          refine ⟨rd, q.2, rfl, ?_, ?_⟩
          · rw [← hq1]
            exact hq
          · rw [hval]
            rw [hval] at hq2
            simp only [Option.getD] at hq2
            rw [hq2]
        | none =>
          left
          rw [hval] at hq2
          simp only [Option.getD] at hq2
          rw [← hq2]
      | none =>
        rw [hm] at hmem
        obtain ⟨q, hq, hfq⟩ := List.mem_map.mp hmem
        left
        injection hfq with hq1 hq2
        rw [← hq2]

/-- Witness for C1 at a concrete run: one record, one-row table, one
mapped field. -/
theorem mapping_over_table_schema_complete_witness :
    ∃ r ∈ [[(sampleIdField, "s1")]], ∃ sid,
      getF r sampleIdField = some sid ∧
      ∀ p ∈ [("lineage_name", "lineage")],
        ∃ v, getF [(sampleIdField, "s1"), ("lineage_name", "B.1.1.7")] p.1 = some v ∧
          (v = sentinel ∨ ∃ rd col,
            getF [("s1", [("lineage", "B.1.1.7")])] sid = some rd ∧
            (p.1, col) ∈ [("lineage_name", "lineage")] ∧ getF rd col = some v) :=
  mapping_over_table_schema_complete
    [[(sampleIdField, "s1")]] [("s1", [("lineage", "B.1.1.7")])]
    [("lineage_name", "lineage")]
    [[(sampleIdField, "s1"), ("lineage_name", "B.1.1.7")]] rfl
    [(sampleIdField, "s1"), ("lineage_name", "B.1.1.7")]
    (List.mem_singleton.mpr rfl)

/-- C2, amended part that holds: mapping_over_table itself never raises
when every record carries the submitting_lab_sample_id field; a sample
absent from the table and a column absent from a row are absorbed (the
record side gets sentinels, the failures go to the errors / field_errors
accumulators). -/
theorem mapping_over_table_never_raises (j_data : List Record)
    (map_data : SourceTable) (mapping_fields : Dict String)
    (h : ∀ r ∈ j_data, (getF r sampleIdField).isSome = true) :
    ∃ out, mapping_over_table j_data map_data mapping_fields = .ok out := by
  rw [mapping_over_table_eq_mapME]
  refine mapME_ok_of_all_ok _ _ ?_
  intro r hr
  unfold mapRow
  cases hid : getF r sampleIdField with
  | none =>
    have hc := h r hr
    rw [hid] at hc
    simp at hc
  | some sid => exact ⟨_, rfl⟩

/-- Witness for the amended C2 statement: a record missing from the table
and one with a missing column, no failure. -/
theorem mapping_over_table_never_raises_witness :
    ∃ out,
      mapping_over_table [[(sampleIdField, "sA")], [(sampleIdField, "sB")]]
        [("sB", [("other", "1")])] [("depth", "meandepth")] = .ok out :=
  mapping_over_table_never_raises
    [[(sampleIdField, "sA")], [(sampleIdField, "sB")]]
    [("sB", [("other", "1")])] [("depth", "meandepth")]
    (by intro r hr; fin_cases hr <;> rfl)

/-- C2 fails as stated: the software-version-manifest join
(include_software_versions) performs bare nested dict lookups
versions[key][value] and raises KeyError when the manifest lacks a tool
key, even though every record carries submitting_lab_sample_id.  Here the
manifest is empty and the join raises instead of absorbing the miss. -/
theorem include_software_versions_raises :
    include_software_versions [[(sampleIdField, "s1")]]
      [("variant_calling_software_version", [("ivar", "version")])] [] =
      .error ("KeyError: " ++ "ivar") := rfl

/-- C3 fails as stated: mapping_over_table looks the raw
submitting_lab_sample_id up in the table, with no hyphen-to-underscore
canonicalization.  The record id 12345-A differs from the table key
12345_A only in the separator, yet the sample is treated as missing and
its target field is set to the sentinel, not to the value B.1.1.7 of the
table row. -/
theorem mapping_over_table_no_canonicalization :
    mapping_over_table [[(sampleIdField, "12345-A")]]
        [("12345_A", [("lineage", "B.1.1.7")])] [("lineage_name", "lineage")] =
      .ok [[(sampleIdField, "12345-A"), ("lineage_name", sentinel)]] ∧
    sentinel ≠ "B.1.1.7" := ⟨rfl, by decide⟩

/-- C3, amended: mapping_over_table uses the raw record id for the table
lookup; a record whose raw id is absent from the table has every target
field set to the sentinel, even when the canonicalized id (hyphens
replaced by underscores) is a key of the table. -/
theorem mapping_over_table_raw_id_miss (row : Record) (map_data : SourceTable)
    (mapping_fields : Dict String) (sid : String)
    (h1 : getF row sampleIdField = some sid)
    (h2 : getF map_data sid = none)
    (_h3 : (getF map_data (replaceDash sid)).isSome = true) :
    ∃ r', mapping_over_table [row] map_data mapping_fields = .ok [r'] ∧
      ∀ p ∈ mapping_fields, getF r' p.1 = some sentinel := by
  rw [mapping_over_table_eq_mapME]
  refine ⟨applyWrites row (rowWrites map_data mapping_fields sid), ?_, ?_⟩
  · simp [mapME, mapRow, h1]
  · intro p hp
    rw [getF_applyWrites]
    have hkey : (p.1, sentinel) ∈ rowWrites map_data mapping_fields sid := by
      unfold rowWrites
      rw [h2]
      exact List.mem_map_of_mem (fun q => (q.1, sentinel)) hp
    obtain ⟨v, hv⟩ := lastVal_isSome_of_key_mem _ p.1 sentinel hkey
    have hmem := lastVal_mem _ p.1 v hv
    unfold rowWrites at hmem
    rw [h2] at hmem
    obtain ⟨q, hq, hfq⟩ := List.mem_map.mp hmem
    injection hfq with hq1 hq2
    rw [hv, ← hq2]

/-- Witness for the amended C3 statement at the spec example pair
12345-A / 12345_A. -/
theorem mapping_over_table_raw_id_miss_witness :
    ∃ r', mapping_over_table [[(sampleIdField, "12345-A")]]
        [("12345_A", [("lineage", "B.1.1.7")])] [("lineage_name", "lineage")] =
        .ok [r'] ∧
      ∀ p ∈ [("lineage_name", "lineage")], getF r' p.1 = some sentinel :=
  mapping_over_table_raw_id_miss [(sampleIdField, "12345-A")]
    [("12345_A", [("lineage", "B.1.1.7")])] [("lineage_name", "lineage")]
    "12345-A" rfl rfl (by decide)

/-- C9 fails as stated: when the mapping spec maps the
submitting_lab_sample_id field itself, the first join rewrites the key the
second join looks up, so joining twice differs from joining once. -/
theorem mapping_over_table_not_idempotent :
    mapping_over_table [[(sampleIdField, "s1")]]
        [("s1", [("n", "s2")]), ("s2", [("n", "s3")])] [(sampleIdField, "n")] =
      .ok [[(sampleIdField, "s2")]] ∧
    mapping_over_table [[(sampleIdField, "s2")]]
        [("s1", [("n", "s2")]), ("s2", [("n", "s3")])] [(sampleIdField, "n")] =
      .ok [[(sampleIdField, "s3")]] ∧
    ([[(sampleIdField, "s3")]] : List Record) ≠ [[(sampleIdField, "s2")]] :=
  ⟨rfl, rfl, by decide⟩

/-- C9, amended: applying mapping_over_table twice with the same source
table and spec equals applying it once, provided the spec does not declare
submitting_lab_sample_id as a target field (which no real mapping spec
does). -/
theorem mapping_over_table_idem (j_data : List Record)
    (map_data : SourceTable) (mapping_fields : Dict String) (out : List Record)
    (hf : ∀ p ∈ mapping_fields, p.1 ≠ sampleIdField)
    (h : mapping_over_table j_data map_data mapping_fields = .ok out) :
    mapping_over_table out map_data mapping_fields = .ok out := by
  rw [mapping_over_table_eq_mapME] at h ⊢
  exact mapME_fix _ (fun a b hab => mapRow_idem map_data mapping_fields hf a b hab)
    j_data out h

/-- Witness for the amended C9 statement: a two-record run joined twice. -/
theorem mapping_over_table_idem_witness :
    mapping_over_table
        [[(sampleIdField, "sA"), ("depth", "7.1")],
          [(sampleIdField, "sB")]]
        [("sA", [("meandepth", "9.8")])] [("depth", "meandepth")] =
      .ok [[(sampleIdField, "sA"), ("depth", "9.8")],
        [(sampleIdField, "sB"), ("depth", sentinel)]] :=
  mapping_over_table_idem
    [[(sampleIdField, "sA"), ("depth", "7.1")], [(sampleIdField, "sB")]]
    [("sA", [("meandepth", "9.8")])] [("depth", "meandepth")]
    [[(sampleIdField, "sA"), ("depth", "9.8")],
      [(sampleIdField, "sB"), ("depth", sentinel)]]
    (by intro p hp; rw [List.mem_singleton] at hp; subst hp; decide)
    rfl

/-- `l[i]` on a Python list with a nonnegative index: IndexError when out
of range. -/
def pyIdx {α : Type} (l : List α) (i : Nat) : Except String α :=
  match l.get? i with
  | some x => .ok x
  | none => .error "IndexError: list index out of range"

/-- A value of the heterogeneous dict returned by
utils.read_csv_file_return_dict: the special ERROR entry holds a string,
every regular entry holds a row of columns. -/
inductive CsvVal : Type where
  | s (v : String)
  | row (r : Dict String)
  deriving DecidableEq

/-- Shared shape of the two row-building loops of
read_csv_file_return_dict: for each index, row[heading[idx]] =
line_s[idx], with list indexing that can raise IndexError. -/
def rowFoldE (heading line_s : List String) (ixs : List Nat)
    (init : Dict String) : Except String (Dict String) :=
  ixs.foldlM
    (fun rd idx => do
      let h ← pyIdx heading idx
      let v ← pyIdx line_s idx
      pure (setF rd h v))
    init

/-- One iteration of the data-line loop of read_csv_file_return_dict
(utils.py lines 100-111): split the line, take the key from column 0
(key_position None) or from the key position, and build the row-mapping
over the heading indices, skipping the key position. -/
def csvStep (heading : List String) (sep : Char) :
    Option Nat → Dict CsvVal → String → Except String (Dict CsvVal)
  | none, fd, line => do
    let line_s := pySplit (pyStrip line) sep
    let key ← pyIdx line_s 0
    let rowd ← rowFoldE heading line_s ((List.range heading.length).drop 1) []
    pure (setF fd key (CsvVal.row rowd))
  | some kp, fd, line => do
    let line_s := pySplit (pyStrip line) sep
    let key ← pyIdx line_s kp
    let rowd ← (List.range heading.length).foldlM
      (fun rd idx =>
        if idx = kp then pure rd
        else do
          let h ← pyIdx heading idx
          let v ← pyIdx line_s idx
          pure (setF rd h v))
      []
    pure (setF fd key (CsvVal.row rowd))

/-- utils.read_csv_file_return_dict (utils.py lines 86-113) on the list of
lines of the file.  The header is the first line split on the separator; a
single-column header returns the dict with the single ERROR entry; then
one row-mapping per unique key, later rows overwriting earlier ones. -/
def read_csv_file_return_dict :
    List String → Char → Option Nat → Except String (Dict CsvVal)
  | [], _, _ => .error "IndexError: list index out of range"
  | l0 :: rest, sep, key_position =>
    let heading := pySplit (pyStrip l0) sep
    if heading.length = 1 then .ok [("ERROR", CsvVal.s "not valid format")]
    else rest.foldlM (csvStep heading sep key_position) []

/-- C8 fails as stated: a header that splits into a single column under
the separator does not make read_csv_file_return_dict fail; the function
returns normally, yielding the dict ERROR -> "not valid format" (and no
exception type named MalformedTableError exists anywhere in the code). -/
theorem read_csv_single_header_returns :
    read_csv_file_return_dict ["singlecolumnheader", "a,b", "c,d"] ',' .none =
      .ok [("ERROR", CsvVal.s "not valid format")] := rfl

/-- C8, amended: for every file whose header line splits into exactly one
column under the separator, read_csv_file_return_dict returns (rather than
raises) the one-entry dict ERROR -> "not valid format" in place of a
source table, whatever the data lines and key position. -/
theorem read_csv_single_header (lines rest : List String) (l0 : String)
    (sep : Char) (kpos : Option Nat) (h0 : lines = l0 :: rest)
    (h1 : (pySplit (pyStrip l0) sep).length = 1) :
    read_csv_file_return_dict lines sep kpos =
      .ok [("ERROR", CsvVal.s "not valid format")] := by
  subst h0
  simp only [read_csv_file_return_dict]
  rw [if_pos h1]

/-- Witness for the amended C8 statement. -/
theorem read_csv_single_header_witness :
    read_csv_file_return_dict ["justoneheader", "x,y"] ',' (.some 0) =
      .ok [("ERROR", CsvVal.s "not valid format")] :=
  read_csv_single_header ["justoneheader", "x,y"] ["x,y"] "justoneheader" ','
    (.some 0) rfl rfl

theorem pyIdx_ok_getD {α : Type} (l : List α) (i : Nat) (x : α) (d : α)
    (h : pyIdx l i = .ok x) : l.getD i d = x := by
  unfold pyIdx at h
  cases hg : l.get? i with
  | none => rw [hg] at h; cases h
  | some y =>
    rw [hg] at h
    cases h
    rw [List.getD_eq_getD_get?, hg]
    rfl

/-- The key a data line contributes, as read_csv_file_return_dict reads it
(column kidx of the stripped, split line). -/
def keyOfLine (sep : Char) (kidx : Nat) (line : String) : String :=
  (pySplit (pyStrip line) sep).getD kidx ""

/-- The row-mapping a data line contributes: heading[idx] maps to column
idx of the line, for every heading index except the key position. -/
def rowPure (heading line_s : List String) (kidx : Nat) : Dict String :=
  ((List.range heading.length).filter (fun i => i ≠ kidx)).foldl
    (fun rd idx => setF rd (heading.getD idx "") (line_s.getD idx "")) []

theorem rowFoldE_ok (heading ls : List String) (ixs : List Nat)
    (init rd : Dict String) (h : rowFoldE heading ls ixs init = .ok rd) :
    rd = ixs.foldl
      (fun rd idx => setF rd (heading.getD idx "") (ls.getD idx "")) init := by
  induction ixs generalizing init with
  | nil =>
    simp only [rowFoldE, List.foldlM_nil] at h
    cases h
    rfl
  | cons i ixs ih =>
    simp only [rowFoldE, List.foldlM_cons] at h
    cases hh : pyIdx heading i with
    | error e => rw [hh] at h; cases h
    | ok hv =>
      rw [hh] at h
      cases hv2 : pyIdx ls i with
      | error e => rw [hv2] at h; cases h
      | ok v =>
        rw [hv2] at h
        simp only [List.foldl_cons]
        rw [pyIdx_ok_getD heading i hv "" hh, pyIdx_ok_getD ls i v "" hv2]
        exact ih _ h

theorem skipFoldM_eq_filter (heading ls : List String) (kp : Nat)
    (ixs : List Nat) (init : Dict String) :
    ixs.foldlM
        (fun rd idx =>
          if idx = kp then pure rd
          else do
            let h ← pyIdx heading idx
            let v ← pyIdx ls idx
            pure (setF rd h v))
        init =
      rowFoldE heading ls (ixs.filter (fun i => i ≠ kp)) init := by
  induction ixs generalizing init with
  | nil => rfl
  | cons i ixs ih =>
    simp only [List.foldlM_cons]
    by_cases hi : i = kp
    · have hfil : (i :: ixs).filter (fun j => j ≠ kp) =
          ixs.filter (fun j => j ≠ kp) := by
        subst hi
        simp
      rw [hfil, if_pos hi]
      exact ih init
    · have hfil : (i :: ixs).filter (fun j => j ≠ kp) =
          i :: ixs.filter (fun j => j ≠ kp) := by
        simp [List.filter_cons, hi]
      rw [hfil, if_neg hi]
      unfold rowFoldE
      simp only [List.foldlM_cons]
      cases hh : pyIdx heading i with
      | error e => rfl
      | ok hv =>
        cases hv2 : pyIdx ls i with
        | error e => rfl
        | ok v => exact ih (setF init hv v)

theorem range_drop_one_eq_filter (n : Nat) :
    (List.range n).drop 1 = (List.range n).filter (fun i => i ≠ 0) := by
  cases n with
  | zero => rfl
  | succ m =>
    rw [List.range_succ_eq_map]
    simp only [List.drop_succ_cons, List.drop_zero, List.filter_cons]
    rw [if_neg (by simp)]
    symm
    rw [List.filter_eq_self]
    intro a ha
    obtain ⟨b, _, hb⟩ := List.mem_map.mp ha
    simp [← hb]

theorem csvStep_ok (heading : List String) (sep : Char) (kpos : Option Nat)
    (kidx : Nat) (hk : kidx = (match kpos with | none => 0 | some kp => kp))
    (fd fd' : Dict CsvVal) (line : String)
    (h : csvStep heading sep kpos fd line = .ok fd') :
    fd' = setF fd (keyOfLine sep kidx line)
      (CsvVal.row (rowPure heading (pySplit (pyStrip line) sep) kidx)) := by
  cases kpos with
  | none =>
    have hk0 : kidx = 0 := hk
    subst hk0
    simp only [csvStep] at h
    cases hkey : pyIdx (pySplit (pyStrip line) sep) 0 with
    | error e => rw [hkey] at h; cases h
    | ok key =>
      rw [hkey] at h
      cases hrow : rowFoldE heading (pySplit (pyStrip line) sep)
          ((List.range heading.length).drop 1) [] with
      | error e => rw [hrow] at h; cases h
      | ok rowd =>
        rw [hrow] at h
        have h2 : setF fd key (CsvVal.row rowd) = fd' := by
          cases h
          rfl
        rw [← h2, keyOfLine, pyIdx_ok_getD _ 0 key "" hkey]
        rw [rowFoldE_ok _ _ _ _ _ hrow]
        rw [rowPure, ← range_drop_one_eq_filter]
  | some kp =>
    have hk0 : kidx = kp := hk
    rw [hk0]
    simp only [csvStep] at h
    cases hkey : pyIdx (pySplit (pyStrip line) sep) kp with
    | error e => rw [hkey] at h; cases h
    | ok key =>
      rw [hkey] at h
      rw [skipFoldM_eq_filter] at h
      cases hrow : rowFoldE heading (pySplit (pyStrip line) sep)
          ((List.range heading.length).filter (fun i => i ≠ kp)) [] with
      | error e => rw [hrow] at h; cases h
      | ok rowd =>
        rw [hrow] at h
        have h2 : setF fd key (CsvVal.row rowd) = fd' := by
          cases h
          rfl
        rw [← h2, keyOfLine, pyIdx_ok_getD _ kp key "" hkey]
        rw [rowFoldE_ok _ _ _ _ _ hrow]
        rfl

theorem csvFold_ok (heading : List String) (sep : Char) (kpos : Option Nat)
    (kidx : Nat) (hk : kidx = (match kpos with | none => 0 | some kp => kp))
    (dataLines : List String) (fd t : Dict CsvVal)
    (h : dataLines.foldlM (csvStep heading sep kpos) fd = .ok t) :
    t = applyWrites fd
      (dataLines.map (fun line => (keyOfLine sep kidx line,
        CsvVal.row (rowPure heading (pySplit (pyStrip line) sep) kidx)))) := by
  induction dataLines generalizing fd with
  | nil =>
    simp only [List.foldlM_nil] at h
    cases h
    rfl
  | cons line rest ih =>
    simp only [List.foldlM_cons] at h
    cases hstep : csvStep heading sep kpos fd line with
    | error e => rw [hstep] at h; cases h
    | ok fd1 =>
      rw [hstep] at h
      have := ih fd1 h
      rw [this, csvStep_ok heading sep kpos kidx hk fd fd1 line hstep]
      rfl

theorem lastVal_append {α : Type} (ws1 ws2 : List (String × α)) (k : String) :
    lastVal (ws1 ++ ws2) k =
      match lastVal ws2 k with
      | some v => some v
      | none => lastVal ws1 k := by
  induction ws1 with
  | nil =>
    simp only [List.nil_append]
    cases h2 : lastVal ws2 k with
    | some v => rfl
    | none => rfl
  | cons w ws1 ih =>
    have step : lastVal ((w :: ws1) ++ ws2) k =
        match lastVal (ws1 ++ ws2) k with
        | some v => some v
        | none => if w.1 = k then some w.2 else none := rfl
    rw [step, ih]
    cases h2 : lastVal ws2 k with
    | some v => rfl
    | none =>
      show (match lastVal ws1 k with
        | some v => some v
        | none => if w.1 = k then some w.2 else none) = lastVal (w :: ws1) k
      rfl

theorem containsK_setF_ne {α : Type} (d : Dict α) (kw k : String) (v : α)
    (h : kw ≠ k) : containsK (setF d kw v) k = containsK d k := by
  unfold containsK setF
  by_cases hc : d.any (fun p => p.1 = kw)
  · rw [if_pos hc]
    have e1 : ∀ (l : List (String × α)),
        (l.any fun q => q.1 = k) = ((l.map Prod.fst).any fun s => s = k) := by
      intro l
      induction l with
      | nil => rfl
      | cons q r ih =>
        simp only [List.any_cons, List.map_cons]
        rw [ih]
    rw [e1, keys_map_upd, ← e1]
  · rw [if_neg hc, List.any_append]
    simp [h]

theorem containsK_applyWrites_false {α : Type} (ws : List (String × α))
    (d : Dict α) (k : String) (hws : ∀ w ∈ ws, w.1 ≠ k)
    (hd : containsK d k = false) : containsK (applyWrites d ws) k = false := by
  induction ws generalizing d with
  | nil => exact hd
  | cons w ws ih =>
    simp only [applyWrites, List.foldl_cons]
    refine ih _ (fun w' hw' => hws w' (List.mem_cons_of_mem _ hw')) ?_
    rw [containsK_setF_ne _ _ _ _ (hws w (List.mem_cons_self _ _))]
    exact hd

/-- The column at the key position never appears in the row-mapping built
for a data line (the loop skips that index; with a duplicate-free header
no other index carries the same column name). -/
theorem rowPure_no_key_col (heading ls : List String) (kidx : Nat)
    (hnd : heading.Nodup) (hlt : kidx < heading.length) :
    containsK (rowPure heading ls kidx) (heading.getD kidx "") = false := by
  unfold rowPure
  have hfold : ((List.range heading.length).filter (fun i => i ≠ kidx)).foldl
      (fun rd idx => setF rd (heading.getD idx "") (ls.getD idx "")) [] =
      applyWrites []
        (((List.range heading.length).filter (fun i => i ≠ kidx)).map
          (fun idx => (heading.getD idx "", ls.getD idx ""))) := by
    unfold applyWrites
    rw [List.foldl_map]
  rw [hfold]
  refine containsK_applyWrites_false _ _ _ ?_ rfl
  intro w hw
  obtain ⟨idx, hidx, hfw⟩ := List.mem_map.mp hw
  have hidx2 := List.mem_filter.mp hidx
  have hlt2 : idx < heading.length := List.mem_range.mp hidx2.1
  have hne : idx ≠ kidx := by simpa using hidx2.2
  rw [← hfw]
  simp only []
  rw [List.getD_eq_get _ _ hlt2, List.getD_eq_get _ _ hlt]
  intro hcontra
  exact hne (congrArg Fin.val ((List.Nodup.get_inj_iff hnd).mp hcontra))

/-- C10: in read_csv_file_return_dict, when several data rows share a key,
the returned table maps that key to the row-mapping of the last such row
in file order (earlier duplicates are silently overwritten), and the
column at the key position never appears among that row-mapping's columns
(given a duplicate-free header).  The key index is column 0 when
key_position is None, the given position otherwise. -/
theorem read_csv_last_dup_wins (lines dataPre dataPost : List String)
    (l0 lineLast : String) (sep : Char) (kpos : Option Nat) (kidx : Nat)
    (k : String) (t : Dict CsvVal)
    (hk : kidx = (match kpos with | none => 0 | some kp => kp))
    (hlines : lines = l0 :: (dataPre ++ lineLast :: dataPost))
    (hhead : (pySplit (pyStrip l0) sep).length ≠ 1)
    (hok : read_csv_file_return_dict lines sep kpos = .ok t)
    (hkey : keyOfLine sep kidx lineLast = k)
    (hpost : ∀ l ∈ dataPost, keyOfLine sep kidx l ≠ k) :
    getF t k = some (CsvVal.row
      (rowPure (pySplit (pyStrip l0) sep) (pySplit (pyStrip lineLast) sep) kidx)) ∧
    ((pySplit (pyStrip l0) sep).Nodup → kidx < (pySplit (pyStrip l0) sep).length →
      containsK
        (rowPure (pySplit (pyStrip l0) sep) (pySplit (pyStrip lineLast) sep) kidx)
        ((pySplit (pyStrip l0) sep).getD kidx "") = false) := by
  constructor
  · subst hlines
    simp only [read_csv_file_return_dict] at hok
    rw [if_neg hhead] at hok
    have ht := csvFold_ok _ sep kpos kidx hk _ _ _ hok
    rw [ht, getF_applyWrites, List.map_append, lastVal_append]
    simp only [List.map_cons, lastVal]
    have hnone : lastVal (dataPost.map (fun line => (keyOfLine sep kidx line,
        CsvVal.row (rowPure (pySplit (pyStrip l0) sep)
          (pySplit (pyStrip line) sep) kidx)))) k = none := by
      rw [lastVal_eq_none_iff]
      intro w hw
      obtain ⟨line, hline, hfw⟩ := List.mem_map.mp hw
      rw [← hfw]
      exact hpost line hline
    rw [hnone]
    simp [hkey]
  · intro hnd hlt
    exact rowPure_no_key_col _ _ _ hnd hlt

/-- Witness for C10: a tab-separated table with key position 1, two data
rows keyed sA (the later wins) followed by one keyed sB. -/
theorem read_csv_last_dup_wins_witness :
    getF [("sA", CsvVal.row [("h0", "new0"), ("h2", "new2")]),
        ("sB", CsvVal.row [("h0", "b0"), ("h2", "b2")])] "sA" =
      some (CsvVal.row
        (rowPure (pySplit (pyStrip "h0\thkey\th2") '\t')
          (pySplit (pyStrip "new0\tsA\tnew2") '\t') 1)) ∧
    ((pySplit (pyStrip "h0\thkey\th2") '\t').Nodup →
      1 < (pySplit (pyStrip "h0\thkey\th2") '\t').length →
      containsK
        (rowPure (pySplit (pyStrip "h0\thkey\th2") '\t')
          (pySplit (pyStrip "new0\tsA\tnew2") '\t') 1)
        ((pySplit (pyStrip "h0\thkey\th2") '\t').getD 1 "") = false) :=
  read_csv_last_dup_wins
    ["h0\thkey\th2", "old0\tsA\told2", "new0\tsA\tnew2", "b0\tsB\tb2"]
    ["old0\tsA\told2"] ["b0\tsB\tb2"] "h0\thkey\th2" "new0\tsA\tnew2"
    '\t' (.some 1) 1 "sA"
    [("sA", CsvVal.row [("h0", "new0"), ("h2", "new2")]),
      ("sB", CsvVal.row [("h0", "b0"), ("h2", "b2")])]
    rfl rfl (by decide) rfl rfl
    (by intro l hl; rw [List.mem_singleton] at hl; subst hl; decide)

/-- A value of the variants_long_table mapping configuration: a scalar
column reference or a nested group of column references. -/
inductive HeadVal : Type where
  | s (v : String)
  | group (g : Dict String)
  deriving DecidableEq

/-- A field of a parsed variant entry: a scalar cell or a nested object of
cells. -/
inductive VarVal : Type where
  | s (v : String)
  | obj (o : Dict String)
  deriving DecidableEq

/-- Python `list.index(x)` on a list of strings: position of the first
occurrence, ValueError when absent. -/
def pyIndex : List String → String → Option Nat
  | [], _ => none
  | a :: t, x => if a = x then some 0 else (pyIndex t x).map (fun i => i + 1)

/-- One entry of the heading_index construction of
LongTableParse.parse_file (viralrecon.py lines 99-100):
heading_index[heading] = headings_from_csv.index(heading); list.index
raises ValueError when the value is absent, and a group value (a dict)
equals no header string, so list.index raises ValueError for it too. -/
def hiStep (headings : List String) (acc : Dict Nat) (p : String × HeadVal) :
    Except String (Dict Nat) :=
  match p.2 with
  | .s h =>
    match pyIndex headings h with
    | some i => .ok (setF acc h i)
    | none => .error (h ++ " is not in list")
  | .group _ => .error "is not in list"

/-- LongTableParse.parse_file, heading_index construction (viralrecon.py
lines 97-100). -/
def buildHeadingIndex (cfg : Dict HeadVal) (headings : List String) :
    Except String (Dict Nat) :=
  cfg.foldlM (hiStep headings) []

/-- The variant_dict comprehension of LongTableParse.parse_file
(viralrecon.py lines 110-117): per configured key, the cell at the indexed
column, or the nested object of cells for a group value. -/
def buildVariantDict (cfg : Dict HeadVal) (hi : Dict Nat)
    (line_s : List String) : Except String (Dict VarVal) :=
  cfg.foldlM
    (fun acc p =>
      match p.2 with
      | .s v => do
        let i ← getE hi v
        let x ← pyIdx line_s i
        pure (setF acc p.1 (VarVal.s x))
      | .group g => do
        let o ← g.foldlM
          (fun acc2 q => do
            let i ← getE hi q.2
            let x ← pyIdx line_s i
            pure (setF acc2 q.1 x))
          []
        pure (setF acc p.1 (VarVal.obj o)))
    []

/-- The variant entries one data line contributes (viralrecon.py lines
110-130): the variant_dict, then one copy per gene token when the gene
cell contains the fusion separator, one entry otherwise. -/
def rowVariants (cfg : Dict HeadVal) (hi : Dict Nat) (line_s : List String) :
    Except String (List (Dict VarVal)) := do
  let vd ← buildVariantDict cfg hi line_s
  let gi ← getE hi "GENE"
  let g ← pyIdx line_s gi
  if pyHasChar g '&' then
    pure ((pySplit g '&').map (fun gene => setF vd "Gene" (VarVal.s gene)))
  else
    pure [setF vd "Gene" (VarVal.s g)]

/-- `samp_dict[sample].append(v)`. -/
def updAppend {α : Type} (d : Dict (List α)) (k : String) (v : α) :
    Dict (List α) :=
  d.map (fun p => if p.1 = k then (p.1, p.2 ++ [v]) else p)

/-- One iteration of the data-line loop of LongTableParse.parse_file
(viralrecon.py lines 103-130). -/
def processLine (cfg : Dict HeadVal) (hi : Dict Nat)
    (d : Dict (List (Dict VarVal))) (line : String) :
    Except String (Dict (List (Dict VarVal))) := do
  let line_s := pySplit (pyStrip line) ','
  let si ← getE hi "SAMPLE"
  let sample ← pyIdx line_s si
  let d1 := if containsK d sample then d else d ++ [(sample, [])]
  let vs ← rowVariants cfg hi line_s
  pure (vs.foldl (fun dd v => updAppend dd sample v) d1)

/-- LongTableParse.parse_file (viralrecon.py lines 87-132) on the lines of
the long-table csv file. -/
def parse_file (cfg : Dict HeadVal) :
    List String → Except String (Dict (List (Dict VarVal)))
  | [] => .error "IndexError: list index out of range"
  | l0 :: rest => do
    let headings := pySplit (pyStrip l0) ','
    let hi ← buildHeadingIndex cfg headings
    rest.foldlM (processLine cfg hi) []

/-- One match attempt of the pattern
variants_long_table(?:_\d{8})?\.csv at a fixed position of the file base
name: first the greedy branch with the 8-digit date group, then the branch
without it. -/
def ltMatchAt (cs : List Char) : Option (Option String) :=
  if "variants_long_table".data.isPrefixOf cs then
    let rest := cs.drop 19
    let withDate :=
      match rest with
      | '_' :: r2 =>
        if (r2.take 8).length = 8 && (r2.take 8).all Char.isDigit &&
            ".csv".data.isPrefixOf (r2.drop 8) then
          some (String.mk (r2.take 8))
        else none
      | _ => none
    match withDate with
    | some dd => some (some dd)
    | none => if ".csv".data.isPrefixOf rest then some none else none
  else none

/-- re.search of the long-table file-name pattern: leftmost position where
the pattern matches; the inner Option is the 8-digit date group. -/
def searchLT : List Char → Option (Option String)
  | [] => ltMatchAt []
  | c :: t =>
    match ltMatchAt (c :: t) with
    | some r => some r
    | none => searchLT t

/-- One entry of the JSON artifact written by LongTableParse. -/
structure JEntry : Type where
  sample_name : String
  analysis_date : String
  variants : List (Dict VarVal)
  deriving DecidableEq

/-- LongTableParse.convert_to_json (viralrecon.py lines 134-162): fatal
when the base name does not contain the long-table pattern; the analysis
date is the matched 8-digit group, the sentinel when the group is absent. -/
def convert_to_json (baseName : String)
    (samp_dict : Dict (List (Dict VarVal))) : Except String (List JEntry) :=
  match searchLT baseName.data with
  | none => .error "exit 1: expected variants_long_table.csv or variants_long_table_YYYYMMDD.csv"
  | some dopt =>
    let analysis_date := dopt.getD sentinel
    .ok (samp_dict.map (fun p => ⟨p.1, analysis_date, p.2⟩))

/-- LongTableParse.parsing_csv (viralrecon.py lines 177-187): parse the
file, convert; the resulting list is what save_to_file serializes. -/
def parsing_csv (cfg : Dict HeadVal) (baseName : String)
    (lines : List String) : Except String (List JEntry) := do
  let sd ← parse_file cfg lines
  convert_to_json baseName sd

/-- The scalar column references of the configuration: the columns the
header must contain for parse_file to proceed. -/
def scalarVals (cfg : Dict HeadVal) : List String :=
  cfg.filterMap (fun p => match p.2 with | .s v => some v | .group _ => none)

theorem pyIndex_isSome_of_mem (l : List String) (x : String) (h : x ∈ l) :
    ∃ i, pyIndex l x = some i := by
  induction l with
  | nil => cases h
  | cons a t ih =>
    by_cases ha : a = x
    · exact ⟨0, by simp [pyIndex, ha]⟩
    · rcases List.mem_cons.mp h with hh | hh
      · exact absurd hh.symm ha
      · obtain ⟨i, hi⟩ := ih hh
        exact ⟨i + 1, by simp [pyIndex, ha, hi]⟩

theorem pyIndex_eq_none_of_not_mem (l : List String) (x : String)
    (h : x ∉ l) : pyIndex l x = none := by
  induction l with
  | nil => rfl
  | cons a t ih =>
    have ha : ¬a = x := fun hh => h (by rw [hh]; exact List.mem_cons_self _ _)
    simp only [pyIndex, ha, if_false]
    rw [ih (fun hh => h (List.mem_cons_of_mem _ hh))]
    rfl

theorem exc_bind_ok {α β : Type} (a : α) (f : α → Except String β) :
    (Except.ok a >>= f) = f a := rfl

theorem exc_bind_error {α β : Type} (e : String) (f : α → Except String β) :
    ((Except.error e : Except String α) >>= f) = Except.error e := rfl

theorem scalarVals_cons_s (key : String) (v : String) (cfg : Dict HeadVal) :
    scalarVals ((key, HeadVal.s v) :: cfg) = v :: scalarVals cfg := rfl

theorem buildHI_of_missing (cfg : Dict HeadVal) (headings : List String)
    (hscalar : ∀ p ∈ cfg, ∃ v, p.2 = HeadVal.s v)
    (hmiss : ∃ h ∈ scalarVals cfg, h ∉ headings) :
    ∀ acc, ∃ h, h ∈ scalarVals cfg ∧ h ∉ headings ∧
      cfg.foldlM (hiStep headings) acc = .error (h ++ " is not in list") := by
  induction cfg with
  | nil =>
    obtain ⟨h, hh, _⟩ := hmiss
    cases hh
  | cons p cfg ih =>
    intro acc
    obtain ⟨v, hv⟩ := hscalar p (List.mem_cons_self _ _)
    obtain ⟨key, pv⟩ := p
    simp only [] at hv
    subst hv
    rw [scalarVals_cons_s] at hmiss ⊢
    by_cases hvm : v ∈ headings
    · obtain ⟨i, hi⟩ := pyIndex_isSome_of_mem headings v hvm
      have hstep : hiStep headings acc (key, HeadVal.s v) = .ok (setF acc v i) := by
        simp [hiStep, hi]
      have hmiss2 : ∃ h ∈ scalarVals cfg, h ∉ headings := by
        obtain ⟨h, hh, hnm⟩ := hmiss
        rcases List.mem_cons.mp hh with rfl | hh2
        · exact absurd hvm hnm
        · exact ⟨h, hh2, hnm⟩
      obtain ⟨h, hh, hnm, hfold⟩ :=
        ih (fun q hq => hscalar q (List.mem_cons_of_mem _ hq)) hmiss2 (setF acc v i)
      refine ⟨h, List.mem_cons_of_mem _ hh, hnm, ?_⟩
      simp only [List.foldlM_cons, hstep, exc_bind_ok]
      exact hfold
    · refine ⟨v, List.mem_cons_self _ _, hvm, ?_⟩
      have hnone := pyIndex_eq_none_of_not_mem headings v hvm
      simp only [List.foldlM_cons, hiStep, hnone, exc_bind_error]

theorem buildHI_of_all_present (cfg : Dict HeadVal) (headings : List String)
    (hscalar : ∀ p ∈ cfg, ∃ v, p.2 = HeadVal.s v)
    (hall : ∀ h ∈ scalarVals cfg, h ∈ headings) :
    ∀ acc, ∃ hi, cfg.foldlM (hiStep headings) acc = .ok hi := by
  induction cfg with
  | nil => exact fun acc => ⟨acc, rfl⟩
  | cons p cfg ih =>
    intro acc
    obtain ⟨v, hv⟩ := hscalar p (List.mem_cons_self _ _)
    obtain ⟨key, pv⟩ := p
    simp only [] at hv
    subst hv
    rw [scalarVals_cons_s] at hall
    obtain ⟨i, hi⟩ :=
      pyIndex_isSome_of_mem headings v (hall v (List.mem_cons_self _ _))
    obtain ⟨hidx, hfold⟩ :=
      ih (fun q hq => hscalar q (List.mem_cons_of_mem _ hq))
        (fun h hh => hall h (List.mem_cons_of_mem _ hh)) (setF acc v i)
    refine ⟨hidx, ?_⟩
    simp only [List.foldlM_cons, hiStep, hi, exc_bind_ok]
    exact hfold

/-- C7: for every long-table file whose header omits at least one column
declared mandatory by the configuration (a scalar column reference of the
variants_long_table mapping), the parsing run fails fatally with the
ValueError naming the missing column - raised before any data line is
processed, so no variant rows are parsed and nothing is written; and the
header-index check passes exactly when every mandatory column is present. -/
theorem parsing_csv_header_check (cfg : Dict HeadVal) (baseName l0 : String)
    (rest : List String)
    (hscalar : ∀ p ∈ cfg, ∃ v, p.2 = HeadVal.s v) :
    ((∃ h ∈ scalarVals cfg, h ∉ pySplit (pyStrip l0) ',') →
      ∃ h, h ∈ scalarVals cfg ∧ h ∉ pySplit (pyStrip l0) ',' ∧
        parsing_csv cfg baseName (l0 :: rest) =
          .error (h ++ " is not in list")) ∧
    ((∀ h ∈ scalarVals cfg, h ∈ pySplit (pyStrip l0) ',') →
      ∃ hi, buildHeadingIndex cfg (pySplit (pyStrip l0) ',') = .ok hi) := by
  constructor
  · intro hmiss
    obtain ⟨h, hh, hnm, hfold⟩ :=
      buildHI_of_missing cfg (pySplit (pyStrip l0) ',') hscalar hmiss []
    refine ⟨h, hh, hnm, ?_⟩
    have hpf : parse_file cfg (l0 :: rest) = .error (h ++ " is not in list") := by
      simp only [parse_file]
      rw [show buildHeadingIndex cfg (pySplit (pyStrip l0) ',') =
        .error (h ++ " is not in list") from hfold]
      rfl
    simp only [parsing_csv]
    rw [hpf]
    rfl
  · intro hall
    exact buildHI_of_all_present cfg (pySplit (pyStrip l0) ',') hscalar hall []

/-- Witness for C7 at a header missing the mandatory GENE column. -/
theorem parsing_csv_header_check_witness :
    ((∃ h ∈ scalarVals [("Chromosome", HeadVal.s "CHROM"),
        ("Gene", HeadVal.s "GENE")],
        h ∉ pySplit (pyStrip "CHROM,POS") ',') →
      ∃ h, h ∈ scalarVals [("Chromosome", HeadVal.s "CHROM"),
          ("Gene", HeadVal.s "GENE")] ∧
        h ∉ pySplit (pyStrip "CHROM,POS") ',' ∧
        parsing_csv [("Chromosome", HeadVal.s "CHROM"),
            ("Gene", HeadVal.s "GENE")]
          "variants_long_table.csv" ["CHROM,POS", "NC,123"] =
          .error (h ++ " is not in list")) ∧
    ((∀ h ∈ scalarVals [("Chromosome", HeadVal.s "CHROM"),
        ("Gene", HeadVal.s "GENE")],
        h ∈ pySplit (pyStrip "CHROM,POS") ',') →
      ∃ hi, buildHeadingIndex [("Chromosome", HeadVal.s "CHROM"),
          ("Gene", HeadVal.s "GENE")] (pySplit (pyStrip "CHROM,POS") ',') =
        .ok hi) :=
  parsing_csv_header_check [("Chromosome", HeadVal.s "CHROM"),
      ("Gene", HeadVal.s "GENE")] "variants_long_table.csv" "CHROM,POS"
    ["NC,123"]
    (by
      intro p hp
      rcases List.mem_cons.mp hp with rfl | hp2
      · exact ⟨"CHROM", rfl⟩
      · rcases List.mem_singleton.mp hp2 with rfl
        exact ⟨"GENE", rfl⟩)

/-- C5: for every long-table data row, when the gene cell contains the
fusion separator the parser emits exactly one variant entry per
ampersand-separated gene token, pairwise identical in every field other
than Gene, with Gene taking each token in order; and when the gene cell
has no separator it emits exactly one entry carrying that gene. -/
theorem rowVariants_fusion_split (cfg : Dict HeadVal) (hi : Dict Nat)
    (ls : List String) (vs : List (Dict VarVal)) (gi : Nat) (g : String)
    (hvs : rowVariants cfg hi ls = .ok vs)
    (hgi : getF hi "GENE" = some gi)
    (hg : ls.get? gi = some g) :
    (pyHasChar g '&' = true →
      vs.length = (pySplit g '&').length ∧
      (∀ i v, vs.get? i = some v →
        ∃ t, (pySplit g '&').get? i = some t ∧
          getF v "Gene" = some (VarVal.s t)) ∧
      (∀ v1 ∈ vs, ∀ v2 ∈ vs, ∀ f, f ≠ "Gene" → getF v1 f = getF v2 f)) ∧
    (pyHasChar g '&' = false →
      ∃ v, vs = [v] ∧ getF v "Gene" = some (VarVal.s g)) := by
  unfold rowVariants at hvs
  cases hbd : buildVariantDict cfg hi ls with
  | error e => rw [hbd] at hvs; cases hvs
  | ok vd =>
    rw [hbd] at hvs
    have hge : getE hi "GENE" = .ok gi := by unfold getE; rw [hgi]
    rw [exc_bind_ok] at hvs
    rw [hge, exc_bind_ok] at hvs
    have hpy : pyIdx ls gi = .ok g := by unfold pyIdx; rw [hg]
    rw [hpy, exc_bind_ok] at hvs
    by_cases hamp : pyHasChar g '&'
    · rw [if_pos hamp] at hvs
      cases hvs
      refine ⟨fun _ => ⟨List.length_map _ _, ?_, ?_⟩, fun hc => by rw [hamp] at hc; cases hc⟩
      · intro i v hv
        rw [List.get?_map] at hv
        cases ht : (pySplit g '&').get? i with
        | none => rw [ht] at hv; cases hv
        | some t =>
          rw [ht] at hv
          cases hv
          exact ⟨t, rfl, getF_setF_self _ _ _⟩
      · intro v1 hv1 v2 hv2 f hf
        obtain ⟨t1, _, he1⟩ := List.mem_map.mp hv1
        obtain ⟨t2, _, he2⟩ := List.mem_map.mp hv2
        rw [← he1, ← he2, getF_setF_ne _ _ _ _ hf, getF_setF_ne _ _ _ _ hf]
    · rw [if_neg hamp] at hvs
      cases hvs
      refine ⟨fun hc => ?_, fun _ => ⟨_, rfl, getF_setF_self _ _ _⟩⟩
      rw [Bool.eq_false_iff.mpr hamp] at hc
      cases hc

/-- The variant_dict of the example fused-gene row before the gene split. -/
def fusionExampleVd : Dict VarVal :=
  [("Chromosome", VarVal.s "NC_045512.2"), ("Gene", VarVal.s "ORF7b&ORF8")]

/-- The two variant entries the example fused-gene row produces. -/
def fusionExampleVs : List (Dict VarVal) :=
  [setF fusionExampleVd "Gene" (VarVal.s "ORF7b"),
    setF fusionExampleVd "Gene" (VarVal.s "ORF8")]

/-- Witness for C5 at the spec example gene cell ORF7b&ORF8. -/
theorem rowVariants_fusion_split_witness :
    (pyHasChar "ORF7b&ORF8" '&' = true →
      fusionExampleVs.length = (pySplit "ORF7b&ORF8" '&').length ∧
      (∀ i v, fusionExampleVs.get? i = some v →
        ∃ t, (pySplit "ORF7b&ORF8" '&').get? i = some t ∧
          getF v "Gene" = some (VarVal.s t)) ∧
      (∀ v1 ∈ fusionExampleVs, ∀ v2 ∈ fusionExampleVs,
        ∀ f, f ≠ "Gene" → getF v1 f = getF v2 f)) ∧
    (pyHasChar "ORF7b&ORF8" '&' = false →
      ∃ v, fusionExampleVs = [v] ∧
        getF v "Gene" = some (VarVal.s "ORF7b&ORF8")) :=
  rowVariants_fusion_split
    [("Chromosome", HeadVal.s "CHROM"), ("Gene", HeadVal.s "GENE")]
    [("SAMPLE", 0), ("CHROM", 1), ("GENE", 2)]
    ["sample1", "NC_045512.2", "ORF7b&ORF8"]
    fusionExampleVs 2 "ORF7b&ORF8" rfl rfl rfl

/-- Whether a year is a leap year (Gregorian). -/
def isLeap (y : Nat) : Bool :=
  y % 4 = 0 && (y % 100 != 0 || y % 400 = 0)

/-- Days in a month. -/
def daysInMonth (y m : Nat) : Nat :=
  if m = 2 then (if isLeap y then 29 else 28)
  else if m = 4 || m = 6 || m = 9 || m = 11 then 30
  else 31

/-- The numeric value of a list of decimal digit characters. -/
def digitsToNat (l : List Char) : Nat :=
  l.foldl (fun a c => a * 10 + (c.toNat - 48)) 0

/-- Python datetime.strptime(s, "%Y%m%d"), returning y*10000+m*100+d (the
datetime order) on success: the compiled pattern is four digits for the
year, one or two for month and day, must consume the whole string, greedy
with backtracking, and the date must be valid (month 1-12, day in range,
year at least 1).  So a 6-character digit string parses as y-m-d with
1-digit month and day, 7 characters as 2-digit month and 1-digit day, 8 as
2 and 2; anything else raises ValueError (modelled as none). -/
def strptimeYmd (s : String) : Option Nat :=
  let cs := s.data
  if cs.all Char.isDigit ∧ 6 ≤ cs.length ∧ cs.length ≤ 8 then
    let y := digitsToNat (cs.take 4)
    let rest := cs.drop 4
    let mlen := if cs.length = 6 then 1 else 2
    let m := digitsToNat (rest.take mlen)
    let d := digitsToNat (rest.drop mlen)
    if 1 ≤ y ∧ 1 ≤ m ∧ m ≤ 12 ∧ 1 ≤ d ∧ d ≤ daysInMonth y m then
      some (y * 10000 + m * 100 + d)
    else none
  else none

/-- The date keys Python sorted() computes before sorting the pangolin
candidate files (read_bioinfo_metadata.py lines 157-160), in list order:
dt.split(".")[-2] can raise IndexError (uncaught, .error), strptime can
raise ValueError (caught by the surrounding except, .ok none); the first
failure wins. -/
def pangoDateKeys : List String → Except String (Option (List Nat))
  | [] => .ok (some [])
  | dt :: rest =>
    match (pySplit dt '.').reverse.get? 1 with
    | none => .error "IndexError: list index out of range"
    | some tok =>
      match strptimeYmd tok with
      | none => .ok none
      | some n =>
        match pangoDateKeys rest with
        | .error e => .error e
        | .ok none => .ok none
        | .ok (some ks) => .ok (some (n :: ks))

/-- Stable insertion of a keyed file into an ascending list: equal keys
keep earlier elements first, like Python sorted(). -/
def insertFileByKey (p : String × Nat) : List (String × Nat) → List (String × Nat)
  | [] => [p]
  | q :: r => if q.2 ≤ p.2 then q :: insertFileByKey p r else p :: q :: r

/-- Python sorted(files, key=...) for precomputed keys: stable, ascending. -/
def sortFilesByKey (l : List (String × Nat)) : List (String × Nat) :=
  l.foldl (fun acc p => insertFileByKey p acc) []

/-- The tail of include_pangolin_data for one sample
(read_bioinfo_metadata.py lines 171-176): read the first file of the list,
take the first key of the loaded table, and copy each mapped column onto
the record.  f_data[pang_key] is a row dict for a well-formed csv; for the
one-entry ERROR dict the inner indexing hits a string and raises
TypeError. -/
def pangoRead (mapping_fields : Dict String) (row : Record)
    (files : List String) (readF : String → List String) :
    Except String Record := do
  let f0 ← match files.head? with
    | some f => pure f
    | none => Except.error "IndexError: list index out of range"
  let f_data ← read_csv_file_return_dict (readF f0) ',' none
  let pang_key ← match (f_data.map Prod.fst).head? with
    | some k => pure k
    | none => Except.error "IndexError: list index out of range"
  mapping_fields.foldlM
    (fun r p => do
      let cv ← getE f_data pang_key
      match cv with
      | CsvVal.row rd => do
        let v ← getE rd p.2
        pure (setF r p.1 v)
      | CsvVal.s _ =>
        Except.error "TypeError: string indices must be integers")
    row

/-- BioinfoMetadata.include_pangolin_data for one record
(read_bioinfo_metadata.py lines 140-180), given the glob result
pango_files and the per-file contents readF.  With no candidate every
mapped field gets the sentinel.  Otherwise the candidates are sorted by
the 8-digit token before the final dot-separated component, ascending, and
the FIRST element of the sorted list is used; its date token becomes
lineage_analysis_date.  When some token fails to parse the ValueError is
caught: the record keeps its analysis_date and the unsorted first file is
read. -/
def includePangolinRow (mapping_fields : Dict String) (row : Record)
    (pango_files : List String) (readF : String → List String) :
    Except String Record :=
  if pango_files.isEmpty then
    .ok (mapping_fields.foldl (fun r p => setF r p.1 sentinel) row)
  else
    match pangoDateKeys pango_files with
    | .error e => .error e
    | .ok none => do
      let ad ← getE row "analysis_date"
      pangoRead mapping_fields (setF row "lineage_analysis_date" ad)
        pango_files readF
    | .ok (some ks) => do
      let sortedF := (sortFilesByKey (pango_files.zip ks)).map Prod.fst
      let f0 ← match sortedF.head? with
        | some f => pure f
        | none => Except.error "IndexError: list index out of range"
      let tok ← match (pySplit f0 '.').reverse.get? 1 with
        | some t => pure t
        | none => Except.error "IndexError: list index out of range"
      pangoRead mapping_fields (setF row "lineage_analysis_date" tok)
        sortedF readF

/-- C4 is a code bug: given the two dated candidates of the spec example,
include_pangolin_data sorts ascending and takes element 0, so it selects
the 20230101 file (the oldest) and records 20230101, although its own
console message says it selects the most recent one and the spec requires
the 20230115 file.  The second conjunct shows the intended non-fatal
fallback: an undated candidate makes strptime raise ValueError, which is
caught, and the record keeps its analysis_date. -/
theorem include_pangolin_selects_earliest :
    includePangolinRow [("lineage_name", "lineage")]
        [(sampleIdField, "sampleX"), ("analysis_date", "20230201")]
        ["sampleX.pangolin.20230115.csv", "sampleX.pangolin.20230101.csv"]
        (fun f => if f = "sampleX.pangolin.20230115.csv"
          then ["taxon,lineage", "sampleX,NEWLINEAGE"]
          else ["taxon,lineage", "sampleX,OLDLINEAGE"]) =
      .ok [(sampleIdField, "sampleX"), ("analysis_date", "20230201"),
        ("lineage_analysis_date", "20230101"), ("lineage_name", "OLDLINEAGE")] ∧
    includePangolinRow [("lineage_name", "lineage")]
        [(sampleIdField, "sampleX"), ("analysis_date", "20230201")]
        ["sampleX.pangolin.csv"]
        (fun _ => ["taxon,lineage", "sampleX,SOMELINEAGE"]) =
      .ok [(sampleIdField, "sampleX"), ("analysis_date", "20230201"),
        ("lineage_analysis_date", "20230201"), ("lineage_name", "SOMELINEAGE")] :=
  ⟨rfl, rfl⟩

/-- What read_fasta_return_SeqIO_instance and calculate_md5 yield for one
consensus file: the record description, the sequence length, and the file
md5.  A file system is a partial map from path to this data
(FileNotFoundError when absent). -/
structure FastaRec : Type where
  description : String
  seqLen : Nat
  md5 : String

/-- Python s.isdigit() for ASCII content: nonempty and all digits. -/
def pyIsDigit (s : String) : Bool :=
  !s.data.isEmpty && s.data.all Char.isDigit

/-- Python int(s) for a digit string. -/
def pyInt (s : String) : Nat :=
  digitsToNat s.data

/-- The five consensus field assignments of read_bioinfo_metadata.py lines
213-217. -/
def consensusSets (inputFolder f_name : String) (fr : FastaRec)
    (row : Record) : Record :=
  setF (setF (setF (setF (setF row
    "consensus_genome_length" (toString fr.seqLen))
    "consensus_sequence_name" fr.description)
    "consensus_sequence_filepath" inputFolder)
    "consensus_sequence_filename" f_name)
    "consensus_sequence_md5" fr.md5

/-- The two outcomes of the consensus file read, lines 204-225: missing
file (sentinel fields, the path goes to the missing list) or the field
assignments plus the base-pairs computation. -/
def consensusBranch (mapping_fields : Dict String)
    (inputFolder f_name f_path : String) (row : Record) :
    Option FastaRec → Except String (Record × Option String)
  | none =>
    pure (mapping_fields.foldl (fun r p => setF r p.1 sentinel) row, some f_path)
  | some fr => do
    let r5 := consensusSets inputFolder f_name fr row
    let rl ← getE r5 "read_length"
    if pyIsDigit rl then do
      let base := pyInt rl * fr.seqLen
      let sid2 ← getE r5 "submitting_lab_sample_id"
      if sid2 ≠ sentinel then
        pure (setF r5 "number_of_base_pairs_sequenced" (toString (base * 2)), none)
      else
        pure (setF r5 "number_of_base_pairs_sequenced" (toString base), none)
    else
      pure (setF r5 "number_of_base_pairs_sequenced" sentinel, none)

/-- BioinfoMetadata.include_consensus_data for one record
(read_bioinfo_metadata.py lines 197-234): canonicalize the id into the
file name, then take the branch for the file read result.  The second
component of the result is the missing-file entry for the stage report. -/
def include_consensus_row (mapping_fields : Dict String)
    (inputFolder : String) (fastaOf : String → Option FastaRec)
    (row : Record) : Except String (Record × Option String) := do
  let sid ← getE row "submitting_lab_sample_id"
  let sample_name := if pyHasChar sid '-' then replaceDash sid else sid
  let f_name := sample_name ++ ".consensus.fa"
  let f_path := inputFolder ++ "/" ++ f_name
  consensusBranch mapping_fields inputFolder f_name f_path row (fastaOf f_path)

/-- BioinfoMetadata.include_consensus_data over the record list, collecting
the missing-consensus paths the way the loop does. -/
def include_consensus_data (mapping_fields : Dict String)
    (inputFolder : String) (fastaOf : String → Option FastaRec)
    (j_data : List Record) : Except String (List Record × List String) :=
  j_data.foldlM
    (fun acc row => do
      let pr ← include_consensus_row mapping_fields inputFolder fastaOf row
      pure (acc.1 ++ [pr.1], acc.2 ++ pr.2.toList))
    ([], [])

theorem consensusSets_read_length (inputFolder f_name : String)
    (fr : FastaRec) (row : Record) :
    getF (consensusSets inputFolder f_name fr row) "read_length" =
      getF row "read_length" := by
  unfold consensusSets
  rw [getF_setF_ne _ "consensus_sequence_md5" "read_length" _ (by decide),
    getF_setF_ne _ "consensus_sequence_filename" "read_length" _ (by decide),
    getF_setF_ne _ "consensus_sequence_filepath" "read_length" _ (by decide),
    getF_setF_ne _ "consensus_sequence_name" "read_length" _ (by decide),
    getF_setF_ne _ "consensus_genome_length" "read_length" _ (by decide)]

theorem consensusSets_sample_id (inputFolder f_name : String)
    (fr : FastaRec) (row : Record) :
    getF (consensusSets inputFolder f_name fr row) "submitting_lab_sample_id" =
      getF row "submitting_lab_sample_id" := by
  unfold consensusSets
  rw [getF_setF_ne _ "consensus_sequence_md5" "submitting_lab_sample_id" _ (by decide),
    getF_setF_ne _ "consensus_sequence_filename" "submitting_lab_sample_id" _ (by decide),
    getF_setF_ne _ "consensus_sequence_filepath" "submitting_lab_sample_id" _ (by decide),
    getF_setF_ne _ "consensus_sequence_name" "submitting_lab_sample_id" _ (by decide),
    getF_setF_ne _ "consensus_genome_length" "submitting_lab_sample_id" _ (by decide)]

/-- C6, amended: for a record whose consensus file is read successfully,
number_of_base_pairs_sequenced is read_length times the genome length when
read_length is a digit string, doubled exactly when the record's
submitting_lab_sample_id differs from the sentinel string (the code
consults no other record field, in particular nothing indicating
paired-end sequencing), and the sentinel when read_length is not a digit
string - no failure either way. -/
theorem include_consensus_base_pairs (mapping_fields : Dict String)
    (inputFolder : String) (fastaOf : String → Option FastaRec)
    (row : Record) (sid rl : String) (fr : FastaRec)
    (hsid : getF row "submitting_lab_sample_id" = some sid)
    (hrl : getF row "read_length" = some rl)
    (hfr : fastaOf (inputFolder ++ "/" ++
      ((if pyHasChar sid '-' then replaceDash sid else sid) ++
        ".consensus.fa")) = some fr) :
    ∃ r', include_consensus_row mapping_fields inputFolder fastaOf row =
        .ok (r', none) ∧
      getF r' "number_of_base_pairs_sequenced" = some
        (if pyIsDigit rl then
          (if sid ≠ sentinel then toString (pyInt rl * fr.seqLen * 2)
           else toString (pyInt rl * fr.seqLen))
         else sentinel) := by
  have hge : getE row "submitting_lab_sample_id" = .ok sid := by
    unfold getE
    rw [hsid]
  simp only [include_consensus_row, hge, exc_bind_ok]
  rw [hfr]
  simp only [consensusBranch]
  have hrlE : getE (consensusSets inputFolder
      ((if pyHasChar sid '-' then replaceDash sid else sid) ++ ".consensus.fa")
      fr row) "read_length" = .ok rl := by
    unfold getE
    rw [consensusSets_read_length, hrl]
  rw [hrlE]
  simp only [exc_bind_ok]
  have hsidE : getE (consensusSets inputFolder
      ((if pyHasChar sid '-' then replaceDash sid else sid) ++ ".consensus.fa")
      fr row) "submitting_lab_sample_id" = .ok sid := by
    unfold getE
    rw [consensusSets_sample_id, hsid]
  by_cases hdig : pyIsDigit rl = true
  · rw [if_pos hdig]
    rw [hsidE]
    simp only [exc_bind_ok]
    by_cases hs : sid ≠ sentinel
    · rw [if_pos hs]
      refine ⟨_, rfl, ?_⟩
      rw [getF_setF_self, if_pos hdig, if_pos hs]
    · rw [if_neg hs]
      refine ⟨_, rfl, ?_⟩
      rw [getF_setF_self, if_pos hdig, if_neg hs]
  · rw [if_neg hdig]
    refine ⟨_, rfl, ?_⟩
    rw [getF_setF_self, if_neg hdig]

/-- Witness for the amended C6 statement at the spec example: read_length
150, genome length 30000, a real sample id, giving 9000000. -/
theorem include_consensus_base_pairs_witness :
    ∃ r', include_consensus_row [] "input"
        (fun _ => some ⟨"sampleX consensus", 30000, "md5x"⟩)
        [(sampleIdField, "sampleX"), ("read_length", "150")] =
        .ok (r', none) ∧
      getF r' "number_of_base_pairs_sequenced" = some
        (if pyIsDigit "150" then
          (if "sampleX" ≠ sentinel then
            toString (pyInt "150" * (30000 : Nat) * 2)
           else toString (pyInt "150" * (30000 : Nat)))
         else sentinel) :=
  include_consensus_base_pairs [] "input"
    (fun _ => some ⟨"sampleX consensus", 30000, "md5x"⟩)
    [(sampleIdField, "sampleX"), ("read_length", "150")]
    "sampleX" "150" ⟨"sampleX consensus", 30000, "md5x"⟩ rfl rfl rfl

/-- C6 fails as stated: the doubling does not depend on any field
recording paired-end sequencing.  Two records identical except for an
explicit library_layout field (single versus paired) both get the doubled
value 150 x 30000 x 2 = 9000000, because the code only compares
submitting_lab_sample_id with the sentinel. -/
theorem include_consensus_doubles_regardless :
    include_consensus_row [] "input"
        (fun _ => some ⟨"desc", 30000, "md5x"⟩)
        [(sampleIdField, "s1"), ("read_length", "150"),
          ("library_layout", "single")] =
      .ok ([(sampleIdField, "s1"), ("read_length", "150"),
        ("library_layout", "single"),
        ("consensus_genome_length", "30000"),
        ("consensus_sequence_name", "desc"),
        ("consensus_sequence_filepath", "input"),
        ("consensus_sequence_filename", "s1.consensus.fa"),
        ("consensus_sequence_md5", "md5x"),
        ("number_of_base_pairs_sequenced", "9000000")], none) ∧
    include_consensus_row [] "input"
        (fun _ => some ⟨"desc", 30000, "md5x"⟩)
        [(sampleIdField, "s1"), ("read_length", "150"),
          ("library_layout", "paired")] =
      .ok ([(sampleIdField, "s1"), ("read_length", "150"),
        ("library_layout", "paired"),
        ("consensus_genome_length", "30000"),
        ("consensus_sequence_name", "desc"),
        ("consensus_sequence_filepath", "input"),
        ("consensus_sequence_filename", "s1.consensus.fa"),
        ("consensus_sequence_md5", "md5x"),
        ("number_of_base_pairs_sequenced", "9000000")], none) :=
  ⟨rfl, rfl⟩

end Relecov
